import Mathlib

/-
Verification development for the variant-expansion and dependency-finalization
engine of conda-build (src/conda_build/render.py, src/conda_build/utils.py).

The Python code is shallowly embedded: pure functions become Lean functions,
Python strings are modelled as `String`/`List Char` (inputs are ASCII), Python
sets as `Finset String`, Python `None` via `Option`, and exceptions via
`Option`/`Except`.  External collaborators (the conda solver, the package
download machinery, yaml/json parsing, `MetaData` re-rendering) enter as
explicit parameters at the same boundaries the source calls them.
-/

/-! ## Python string primitives (on `List Char`; inputs are ASCII) -/

/-- Python `str.split(sep)` for a one-character separator: n separators give
n+1 pieces; the empty string gives one empty piece. -/
def splitOnChar (c : Char) : List Char → List (List Char)
  | [] => [[]]
  | x :: xs =>
    match splitOnChar c xs with
    | [] => if x = c then [[], []] else [[x]]
    | y :: ys => if x = c then [] :: y :: ys else (x :: y) :: ys

/-- Python `str.strip()` restricted to ASCII whitespace. -/
def pyStrip (l : List Char) : List Char :=
  ((l.dropWhile Char.isWhitespace).reverse.dropWhile Char.isWhitespace).reverse

/-- Python `str.rstrip()`. -/
def pyRstrip (l : List Char) : List Char :=
  (l.reverse.dropWhile Char.isWhitespace).reverse

/-- Python `str.isdigit()` (ASCII). -/
def pyIsDigit (l : List Char) : Bool :=
  decide (l ≠ []) && l.all Char.isDigit

/-- Python `str.isalpha()` (ASCII). -/
def pyIsAlpha (l : List Char) : Bool :=
  decide (l ≠ []) && l.all Char.isAlpha

/-- Numeric value of a digit run. -/
def natOfDigits (l : List Char) : Nat :=
  l.foldl (fun n c => n * 10 + (c.toNat - 48)) 0

/-- Python `str.split()` with no argument: split on whitespace runs,
discarding empty pieces. -/
def pySplitWs (l : List Char) : List (List Char) :=
  (splitOnChar ' ' l).filter (fun p => decide (p ≠ []))

/-- Lexicographic `<` on char lists by code point (Python string `<`). -/
def pyStrLt : List Char → List Char → Bool
  | [], [] => false
  | [], _ :: _ => true
  | _ :: _, [] => false
  | a :: as, b :: bs =>
    if a.toNat < b.toNat then true
    else if b.toNat < a.toNat then false
    else pyStrLt as bs

/-! ## VersionOrder

Modelled from the spec: the "standard dependency-version ordering rules" of
the external version-ordering collaborator (`conda.models.version.VersionOrder`,
not part of this repository).  A version is lowercased and validity-checked,
split into an epoch, dot components and a local part; every component is split
into alternating numeric/alphabetic runs (`post` is infinity, `dev` sorts
below every other string by uppercasing it, a component starting with a letter
gets a `0` prepended), and comparison is componentwise with `0` as fill value,
with every string ordering below every number. -/

inductive VPart where
  | num (n : Nat)
  | inf
  | str (s : String)
deriving DecidableEq, Repr

/-- Split a component into maximal runs of digits / non-digits
(`([0-9]+|[^0-9]+)` findall). -/
def charRuns : List Char → List (List Char)
  | [] => []
  | c :: cs =>
    match charRuns cs with
    | [] => [[c]]
    | [] :: rest => [c] :: rest
    | (d :: ds) :: rest =>
      if c.isDigit = d.isDigit then (c :: d :: ds) :: rest
      else [c] :: (d :: ds) :: rest

/-- Convert one digit/non-digit run to a version part. -/
def runToPart (r : List Char) : VPart :=
  if pyIsDigit r then .num (natOfDigits r)
  else if r = "post".data then .inf
  else if r = "dev".data then .str "DEV"
  else .str (String.mk r)

/-- Parse one dot-separated version component; `none` models the collaborator
raising on an empty component. -/
def parseComponent (comp : List Char) : Option (List VPart) :=
  match charRuns comp with
  | [] => none
  | runs =>
    let parts := runs.map runToPart
    some (if (comp.headD ' ').isDigit then parts else .num 0 :: parts)

/-- Characters the collaborator accepts in a (lowercased) version string. -/
def versionCharOk (c : Char) : Bool :=
  c = '*' || c = '.' || c = '+' || c = '!' || c = '_' || c.isDigit ||
    ('a' ≤ c && c ≤ 'z')

structure ParsedVersion where
  version : List (List VPart)
  local_ : List (List VPart)
deriving DecidableEq, Repr

/-- Replace underscores by dots (component separator normalization). -/
def underscoreToDot (l : List Char) : List Char :=
  l.map (fun c => if c = '_' then '.' else c)

/-- Split the main version part into components, honoring the
trailing-underscore openssl convention. -/
def splitMainVersion (mainPart : List Char) : List (List Char) :=
  if mainPart.getLast? = some '_' then
    match (splitOnChar '.' (underscoreToDot mainPart.dropLast)).reverse with
    | [] => []
    | lastC :: rest => ((lastC ++ ['_']) :: rest).reverse
  else splitOnChar '.' (underscoreToDot mainPart)

/-- Parse a version string; `none` models an invalid-version error. -/
def parseVersionOrder (vstr : String) : Option ParsedVersion := do
  let v0 := (pyStrip vstr.data).map Char.toLower
  if v0 = [] then none else
  let v1 :=
    if ¬ v0.all versionCharOk ∧ v0.contains '-' ∧ ¬ v0.contains '_' then
      v0.map (fun c => if c = '-' then '_' else c)
    else v0
  if ¬ v1.all versionCharOk then none else
  let (epoch, rest) ←
    match splitOnChar '!' v1 with
    | [v] => some ("0".data, v)
    | [e, v] => if pyIsDigit e then some (e, v) else none
    | _ => none
  let (mainPart, localPart) ←
    match splitOnChar '+' rest with
    | [v] => some (v, none)
    | [v, l] => some (v, some l)
    | _ => none
  let version ← (epoch :: splitMainVersion mainPart).mapM parseComponent
  let localV ←
    match localPart with
    | none => some []
    | some l => (splitOnChar '.' (underscoreToDot l)).mapM parseComponent
  some ⟨version, localV⟩

/-- Compare two parts of the same phase: every string sorts below every
number (and below infinity); numbers compare numerically; strings compare
lexicographically by code point. -/
def vpartCmp : VPart → VPart → Ordering
  | .str a, .str b => if pyStrLt a.data b.data then .lt
                      else if pyStrLt b.data a.data then .gt else .eq
  | .str _, _ => .lt
  | _, .str _ => .gt
  | .num a, .num b => compare a b
  | .num _, .inf => .lt
  | .inf, .num _ => .gt
  | .inf, .inf => .eq

/-- First-difference comparison of two padded lists. -/
def lexCmpWith (f : α → α → Ordering) : List α → List α → Ordering
  | [], _ => .eq
  | _ :: _, [] => .eq
  | a :: as, b :: bs =>
    match f a b with
    | .eq => lexCmpWith f as bs
    | o => o

/-- Pad a list on the right with a fill element up to length `n`
(`zip_longest` semantics). -/
def padTo (fill : α) (n : Nat) (l : List α) : List α :=
  l ++ List.replicate (n - l.length) fill

/-- Componentwise comparison with numeric fill value `0`. -/
def compCmp (a b : List VPart) : Ordering :=
  let n := max a.length b.length
  lexCmpWith vpartCmp (padTo (.num 0) n a) (padTo (.num 0) n b)

/-- Version-list comparison with empty-component fill value. -/
def verListCmp (a b : List (List VPart)) : Ordering :=
  let n := max a.length b.length
  lexCmpWith compCmp (padTo [] n a) (padTo [] n b)

/-- Full comparison: main version lists, then local version lists. -/
def versionCmp (a b : ParsedVersion) : Ordering :=
  match verListCmp a.version b.version with
  | .eq => verListCmp a.local_ b.local_
  | o => o

/-- Strict `<` of the ordering collaborator. -/
def versionLt (a b : ParsedVersion) : Bool :=
  versionCmp a b = .lt

/-! ## Pin Expression Evaluator (src/conda_build/utils.py `_increment`,
`apply_pin_expressions`) -/

/-- `str(v)` for a flattened version element (`str(float("inf")) = "inf"`). -/
def vpartChars : VPart → List Char
  | .num n => (toString n).data
  | .inf => "inf".data
  | .str s => s.data

/-- utils.py `_increment`: increment the last kept element.  `none` models the
uncaught exceptions of the source (`int` overflow on infinity, `ord` on a
multi-character run). -/
def _increment (v : VPart) (alpha_ver : Bool) : Option (List Char) :=
  let suffix := if alpha_ver then "a".data else ".0a0".data
  match v with
  | .num n => some ((toString (n + 1)).data ++ suffix)
  | .inf => none
  | .str s =>
    if pyIsDigit s.data then some ((toString (natOfDigits s.data + 1)).data ++ suffix)
    else
      match s.data with
      | [c] => some [Char.ofNat (c.toNat + 1)]
      | _ => none

/-- The bound-building loop of `apply_pin_expressions` for one pin, followed
by the single-trailing-dot strip. -/
def buildPinBound (flat : List VPart) (nesting : Option Nat) (pin : Nat)
    (upper : Bool) : Option (List Char) := do
  let s ← (flat.take pin).enum.foldlM
    (fun (acc : List Char) (p : Nat × VPart) => do
      let piece ←
        if upper ∧ p.1 = pin - 1 then
          let alpha_ver := pyIsAlpha (vpartChars (flat.getD (min pin (flat.length - 1)) (.num 0)))
          _increment p.2 alpha_ver
        else some (vpartChars p.2)
      some (acc ++ piece ++ if some p.1 ≠ nesting then ['.'] else []))
    []
  some (if s.getLast? = some '.' then s.dropLast else s)

/-- utils.py `apply_pin_expressions`: turn a version plus min/max pin patterns
into a requirement range string.  `none` models a raised exception. -/
def apply_pin_expressions (version : String) (min_pin : String := "x.x.x.x.x.x.x")
    (max_pin : String := "x") : Option String := do
  let minPinLen : Option Nat :=
    if min_pin = "" then none else some (splitOnChar '.' min_pin.data).length
  let maxPinLen : Option Nat :=
    if max_pin = "" then none else some (splitOnChar '.' max_pin.data).length
  let vo ← parseVersionOrder version
  let parsed_version := vo.version.drop 1
  -- every element of a parsed version is a list, so the nesting loop flattens
  -- everything and leaves nesting_position at the last index
  let st := parsed_version.enum.foldl
    (fun (st : Option Nat × List VPart) p => (some p.1, st.2 ++ p.2))
    ((none : Option Nat), ([] : List VPart))
  let nesting_position := st.1
  let flat_list := st.2
  let maxPinLen :=
    if max_pin ≠ "" ∧ (splitOnChar '.' max_pin.data).length > flat_list.length then
      some flat_list.length
    else maxPinLen
  let lower0 ←
    match minPinLen with
    | some p => if p ≠ 0 then buildPinBound flat_list nesting_position p false else some []
    | none => some []
  let upper0 ←
    match maxPinLen with
    | some p => if p ≠ 0 then buildPinBound flat_list nesting_position p true else some []
    | none => some []
  let lower ←
    if lower0 ≠ [] then do
      let base :=
        if version.data.reverse.take 2 = ['*', '.'] then String.mk (version.data.dropLast.dropLast)
        else if version.data.getLast? = some '*' then String.mk version.data.dropLast
        else version
      let version_order ← parseVersionOrder base
      let lower_order ← parseVersionOrder (String.mk lower0)
      if versionLt version_order lower_order then
        some (">=".data ++ version.data)
      else
        some (">=".data ++ lower0)
    else some []
  let upper := if upper0 ≠ [] then "<".data ++ upper0 else []
  some (String.mk (List.intercalate ",".data ([lower, upper].filter (fun v => decide (v ≠ [])))))

/-! ## Content Hash Engine (src/conda_build/utils.py `compute_content_hash`)

The directory tree is modelled as a list of entries in filesystem-enumeration
order: a relative path given as components, and the entry found there.  A
regular file carries a `text` flag (whether opening it in text mode succeeds,
i.e. no `UnicodeDecodeError`) and its raw contents.  Hashing is modelled as
the exact byte stream fed to `hasher.update`: the real digest is the fixed
hash algorithm applied to this stream, so equal streams give equal digests,
and distinct digests require distinct streams. -/

inductive FsEntry where
  | file (text : Bool) (content : List Char)
  | dir
  | symlink (target : String)
deriving DecidableEq, Repr

/-- `line.replace("\r\n", "\n")` applied linewise; because lines are split
after each newline this equals a global replacement. -/
def crlfNormalize : List Char → List Char
  | [] => []
  | '\r' :: '\n' :: rest => '\n' :: crlfNormalize rest
  | c :: rest => c :: crlfNormalize rest

/-- Backslash-to-forward-slash normalization. -/
def slashNormalize (l : List Char) : List Char :=
  l.map (fun c => if c = '\\' then '/' else c)

/-- The slash-normalized relative path string fed to the hasher. -/
def relPathStr (components : List String) : List Char :=
  slashNormalize (List.intercalate "/".data (components.map String.data))

/-- The platform's own string form of the path, used only as the sort key
(`sorted(..., key=str)`): components joined by the platform separator. -/
def platformPathStr (sep : Char) (components : List String) : List Char :=
  List.intercalate [sep] (components.map String.data)

/-- The `skip` test of `compute_content_hash`, applied to the normalized
relative path. -/
def skipMatches (skip : List String) (relpathstr : List Char) : Bool :=
  skip.any (fun item =>
    (decide (item.data.getLast? = some '/') &&
        item.data.isPrefixOf relpathstr) ||
      decide (relpathstr ++ ['/'] = item.data) ||
      decide (relpathstr = item.data))

/-- The bytes one entry contributes to the running hash. -/
def encodeEntry (e : List String × FsEntry) : List Char :=
  relPathStr e.1 ++
    (match e.2 with
     | .symlink target => 'L' :: slashNormalize target.data
     | .dir => ['D']
     | .file true content => 'F' :: crlfNormalize content
     | .file false content => 'F' :: content) ++
    ['-']

/-- Insertion sort by the platform path string (stable, like `sorted`). -/
def insertByKey (sep : Char) (e : List String × FsEntry) :
    List (List String × FsEntry) → List (List String × FsEntry)
  | [] => [e]
  | f :: fs =>
    if pyStrLt (platformPathStr sep f.1) (platformPathStr sep e.1) then
      f :: insertByKey sep e fs
    else e :: f :: fs

/-- `sorted(Path(directory).rglob("*"), key=str)`. -/
def sortEntries (sep : Char) (entries : List (List String × FsEntry)) :
    List (List String × FsEntry) :=
  entries.foldr (insertByKey sep) []

/-- utils.py `compute_content_hash`, as the byte stream fed to the hash:
sort all entries by their platform path string, drop skipped ones, and
concatenate each entry's contribution. -/
def compute_content_hash (sep : Char) (skip : List String)
    (entries : List (List String × FsEntry)) : List Char :=
  ((sortEntries sep entries).filter
      (fun e => !(skip ≠ [] && skipMatches skip (relPathStr e.1)))).foldr
    (fun e acc => encodeEntry e ++ acc) []

/-- The platform-independent content of an entry: what the spec calls
"identical relative names, entry types, symlink targets, and byte-for-byte
contents after normalization". -/
inductive NormEntry where
  | nfile (content : List Char)
  | ndir
  | nlink (target : List Char)
deriving DecidableEq, Repr

/-- Normalized view of a tree member. -/
def normEntry (e : List String × FsEntry) : List String × NormEntry :=
  (e.1,
    match e.2 with
    | .file true c => .nfile (crlfNormalize c)
    | .file false c => .nfile c
    | .dir => .ndir
    | .symlink t => .nlink (slashNormalize t.data))

/-! ## Spec normalization (src/conda_build/utils.py `ensure_valid_spec`)

The regex `([\w\d\.\-\_]+)\s+((?<![><=])[\w\d\.\-\_]+?(?!\*))(\s+[\w\d\.\_]+)?$`
is matched at the start of the spec.  Because the name and version character
classes exclude whitespace and the version is followed immediately by either
the end or the optional build group, a successful match decomposes the spec
uniquely into name, whitespace, version run (not followed by `*`), and an
optional whitespace-plus-build tail reaching the end. -/

/-- Characters of the name/version class `[\w\d\.\-\_]` (ASCII). -/
def specCls1 (c : Char) : Bool :=
  c.isAlphanum || c = '_' || c = '.' || c = '-'

/-- Characters of the build class `[\w\d\.\_]` (ASCII). -/
def specCls2 (c : Char) : Bool :=
  c.isAlphanum || c = '_' || c = '.'

/-- The decomposition performed by `spec_needing_star_re.match`: name,
version, and whether a build group is present; `none` when the regex does
not match. -/
def matchSpecNeedingStar (spec : List Char) :
    Option (List Char × List Char × Bool) := do
  let name := spec.takeWhile specCls1
  if name = [] then none else
  let rest1 := spec.drop name.length
  let ws1 := rest1.takeWhile Char.isWhitespace
  if ws1 = [] then none else
  let rest2 := rest1.drop ws1.length
  let ver := rest2.takeWhile specCls1
  if ver = [] then none else
  let tail := rest2.drop ver.length
  -- negative lookahead `(?!\*)` after the version
  if tail.headD ' ' = '*' then none else
  if tail = [] then some (name, ver, false) else
  let ws2 := tail.takeWhile Char.isWhitespace
  if ws2 = [] then none else
  let build := (tail.drop ws2.length)
  if build ≠ [] ∧ build.all specCls2 then some (name, ver, true) else none

/-- utils.py `ensure_valid_spec` (string case): append `.*` to a two-token
spec whose version has no relational operator, star or build string; the
`python`/`numpy` `x.x` sentinel is left as `name x.x`. -/
def ensure_valid_spec (spec : String) : String :=
  match matchSpecNeedingStar spec.data with
  | some (name, ver, false) =>
    if (name = "python".data ∨ name = "numpy".data) ∧ ver = "x.x".data then
      String.mk (name ++ [' '] ++ ver)
    else if spec.data.contains '*' then spec
    else String.mk (name ++ [' '] ++ ver ++ ".*".data)
  | _ => spec

/-! ## Exact-Pin Simplifier (src/conda_build/render.py
`_simplify_to_exact_constraints`) -/

/-- Insertion-ordered `defaultdict(list)` append. -/
def dictAppend (d : List (String × List (List String))) (name : String)
    (v : List String) : List (String × List (List String)) :=
  if d.any (fun p => p.1 = name) then
    d.map (fun p => if p.1 = name then (p.1, p.2 ++ [v]) else p)
  else d ++ [(name, v :: [])]

/-- Group a section's deps by name: each entry keeps the spec tokens after
the name (after `ensure_valid_spec` normalization and whitespace split). -/
def buildDepsDict (deps : List String) : List (String × List (List String)) :=
  deps.foldl
    (fun d dep =>
      let spec_parts := (pySplitWs (ensure_valid_spec dep).data).map String.mk
      let name := spec_parts.headD ""
      dictAppend d name (spec_parts.drop 1))
    []

/-- Is a `(version, build, ...)` token list an exact pin: at least two tokens,
no `>`/`<`/`*` in the version and no `*` in the build. -/
def isExactPin (dep : List String) : Bool :=
  decide (dep.length > 1) &&
    (match dep with
     | version :: build :: _ =>
       !((version.data.contains '>' || version.data.contains '<' ||
           version.data.contains '*') || build.data.contains '*')
     | _ => false)

/-- The per-name simplification step of `_simplify_to_exact_constraints`;
`Except.error` models the raised `ValueError` on conflicting exact pins. -/
def simplifyName (name : String) (values : List (List String)) :
    Except String (List String) :=
  let exact_pins := values.filter isExactPin
  if values.length = 1 ∧ values.all (fun v => v = []) then
    .ok [name]
  else if exact_pins ≠ [] then
    if exact_pins.all (fun pin => pin = exact_pins.headD []) then
      .ok [String.intercalate " " (name :: exact_pins.headD [])]
    else .error "Conflicting exact pins"
  else
    .ok ((values.filter (fun v => v ≠ [])).map
      (fun dep => String.intercalate " " (name :: dep)))

/-- render.py `_simplify_to_exact_constraints` restricted to one section's
dependency list. -/
def simplifySection (deps : List String) : Except String (List String) :=
  (buildDepsDict deps).foldlM
    (fun acc p => do
      let r ← simplifyName p.1 p.2
      pure (acc ++ r))
    []

/-! ## Dependency Categorizer and Environment Dependency Resolver
(src/conda_build/render.py `_categorize_deps`, `get_env_dependencies`)

`MetaData` accessors (`get_depends_top_and_out`, `get_section("outputs")`,
`version()`, `get_value`) and the solver collaborator
(`environ.get_package_records`) are inputs; the solver receives the
deduplicated dependency set, matching `tuple(set(dependencies))`. -/

/-- Strip dashes and underscores (`dash_or_under.sub("", s)`). -/
def removeDashUnder (s : String) : String :=
  String.mk (s.data.filter (fun c => !(c = '-' || c = '_')))

/-- Match the interpolated name at the head of `l`, treating `.` in the name
as the regex wildcard it becomes after interpolation; returns the rest. -/
def matchNameAt : List Char → List Char → Option (List Char)
  | [], rest => some rest
  | _ :: _, [] => none
  | p :: ps, c :: cs => if p = '.' ∨ p = c then matchNameAt ps cs else none

/-- After the name: at least one whitespace char, then one character of
`[0-9a-zA-Z\_\.\<\>\=\*]`. -/
def wsThenVersionChar (l : List Char) : Bool :=
  let ws := l.takeWhile Char.isWhitespace
  decide (ws ≠ []) &&
    (match l.drop ws.length with
     | c :: _ => c.isAlphanum || c = '_' || c = '.' || c = '<' || c = '>' ||
         c = '=' || c = '*'
     | [] => false)

/-- `re.search(rf"{spec_name}\s+[0-9a-zA-Z\_\.\<\>\=\*]", spec)`. -/
def searchNameVersion (name spec : List Char) : Bool :=
  (List.range (spec.length + 1)).any (fun i =>
    match matchNameAt name (spec.drop i) with
    | some rest => wsThenVersionChar rest
    | none => false)

/-- render.py `_categorize_deps`: split specs into subpackage references,
external dependencies and pass-through (excluded) specs. -/
def _categorize_deps (outputs : List String) (version : String)
    (exclude : Option (String → Bool)) (variant : List (String × String))
    (specs : List String) : List String × List String × List String :=
  specs.foldl
    (fun acc spec =>
      let excluded := match exclude with | some pat => pat spec | none => false
      if excluded = false then
        let spec_name := String.mk ((pySplitWs spec.data).headD [])
        let subs := (outputs.filter (fun n => n = spec_name)).map
          (fun n => n ++ " " ++ version)
        let deps1 := if subs = [] then [spec] else []
        let deps2 := variant.foldl
          (fun ds p =>
            if removeDashUnder p.1 = removeDashUnder spec_name ∧
                ¬ searchNameVersion spec_name.data spec.data then
              ds ++ [spec_name ++ " " ++ p.2]
            else ds)
          []
        (acc.1 ++ subs, acc.2.1 ++ deps1 ++ deps2, acc.2.2)
      else (acc.1, acc.2.1, acc.2.2 ++ [spec]))
    ([], [], [])

/-- A resolved package record as returned by the solver collaborator. -/
structure PRec where
  name : String
  version : String
  build : String
deriving DecidableEq, Repr

/-- utils.py `package_record_to_requirement`. -/
def package_record_to_requirement (p : PRec) : String :=
  p.name ++ " " ++ p.version ++ " " ++ p.build

/-- Outcome of `environ.get_package_records`: either resolved records, or an
`UnsatisfiableError`/`DependencyNeedsBuildingError` carrying a package list
(`.packages`) or a free-text message. -/
inductive SolverResult where
  | ok (precs : List PRec)
  | fail (packages : Option (List String)) (message : String)

/-- `", ".join(e.packages)`. -/
def joinComma (l : List String) : String :=
  String.intercalate ", " l

structure EnvDepInputs where
  env : String
  specs : List String
  variant : List (String × String)
  exclude : Option (String → Bool)
  outputs : List String
  version : String
  extra_specs : List String
  permit_unsatisfiable_variants : Bool
  fallback : List String
  solver : Finset String → SolverResult

/-- Python `pat in s` substring test. -/
def containsSub (pat l : List Char) : Bool :=
  (List.range (l.length + 1)).any (fun i => pat.isPrefixOf (l.drop i))

/-- `(specs + subpackages + pass_through_deps) or m.get_value(...)`. -/
def orFallback (l fallback : List String) : List String :=
  if l = [] then fallback else l

/-- The `x.x` substitution and categorization steps of
`get_env_dependencies`. -/
def envCategorized (inp : EnvDepInputs) :
    List String × List String × List String :=
  let specs :=
    if inp.env = "build" ∨ inp.env = "host" then
      inp.specs.map (fun spec =>
        if containsSub " x.x".data spec.data then
          let pkg := String.mk ((pySplitWs spec.data).headD [])
          pkg ++ " " ++ ((inp.variant.lookup pkg).getD "")
        else spec)
    else inp.specs
  _categorize_deps inp.outputs inp.version inp.exclude inp.variant specs

/-- The deduplicated dependency set handed to the solver
(`tuple(dependencies)` after `dependencies = set(...) | set(extra_specs)`). -/
def envDepSet (inp : EnvDepInputs) : Finset String :=
  (envCategorized inp).2.1.toFinset ∪ inp.extra_specs.toFinset

/-- render.py `get_env_dependencies`: substitute the variant for `x.x`
specs, categorize, call the solver on the dependency set, and either
tolerate an unsatisfiable environment (empty record set plus diagnostic) or
propagate the failure. -/
def get_env_dependencies (inp : EnvDepInputs) :
    Except (Option (List String) × String) (List String × List PRec × Option String) :=
  let cat := envCategorized inp
  let subpackages := cat.1
  let pass_through_deps := cat.2.2
  match inp.solver (envDepSet inp) with
  | .ok precs =>
    .ok (orFallback (precs.map package_record_to_requirement ++ subpackages ++
        pass_through_deps) inp.fallback, precs, none)
  | .fail packages message =>
    let unsat := match packages with
      | some ps => joinComma ps
      | none => message
    if inp.permit_unsatisfiable_variants then
      .ok (orFallback (subpackages ++ pass_through_deps) inp.fallback, [], some unsat)
    else .error (packages, message)

/-! ## Run-export payload reader (src/conda_build/render.py
`_read_specs_from_package`)

The package location is either an extracted directory, an archive file, or
absent.  `yaml.safe_load`/`json.loads` are collaborators: a structured file
is modelled by its parsed category mapping (present only when the read
content is truthy and parses to a truthy document).  A legacy `run_exports`
payload is modelled by its lines (directory case: `readlines`; archive case:
`splitlines` of the extracted text). -/

/-- A run-export document: category name to spec list, insertion ordered. -/
def RunExportsDoc := List (String × List String)
deriving instance DecidableEq, Repr for RunExportsDoc

inductive PkgLoc where
  /-- `pkg_loc` falsy or pointing nowhere. -/
  | absent
  /-- An extracted package directory with its three candidate payloads. -/
  | dir (legacy : Option (List String)) (yamlDoc : Option RunExportsDoc)
      (jsonDoc : Option RunExportsDoc)
  /-- A package archive with its three candidate payloads. -/
  | file (jsonDoc : Option RunExportsDoc) (yamlDoc : Option RunExportsDoc)
      (legacy : Option (List String))

/-- Insert into a sorted list unless already present (Python
`sorted(list(set(...)))` built incrementally). -/
def insertSortedDistinct (s : String) : List String → List String
  | [] => [s]
  | x :: xs =>
    if s = x then x :: xs
    else if pyStrLt s.data x.data then s :: x :: xs
    else x :: insertSortedDistinct s xs

/-- `sorted(list({...}))` over Python's string order. -/
def sortedSet (l : List String) : List String :=
  l.foldl (fun acc s => insertSortedDistinct s acc) []

/-- `pkg_dist.rsplit("-", 2)[0]`: the package name part of `name-version-build`. -/
def distName (pkg_dist : String) : String :=
  let parts := splitOnChar '-' pkg_dist.data
  if parts.length ≤ 2 then String.mk (parts.headD [])
  else String.mk (List.intercalate "-".data (parts.dropLast.dropLast))

/-- render.py `_read_specs_from_package`. -/
def _read_specs_from_package (pkg_loc : PkgLoc) (pkg_dist : String) :
    RunExportsDoc :=
  match pkg_loc with
  | .absent => []
  | .dir legacy yamlDoc jsonDoc =>
    -- the plain `run_exports` text file is checked first for directories
    match legacy with
    | some lines => [("weak", lines.map (fun l => String.mk (pyRstrip l.data)))]
    | none =>
      match yamlDoc with
      | some doc => doc
      | none => jsonDoc.getD []
  | .file jsonDoc yamlDoc legacy =>
    match jsonDoc with
    | some doc => doc
    | none =>
      match yamlDoc with
      | some doc => doc
      | none =>
        match legacy with
        | some lines =>
          -- exclude entries that merely pin the package itself
          [("weak", sortedSet ((lines.filter
              (fun spec => !(distName pkg_dist).data.isPrefixOf spec.data)).map
            (fun spec => String.mk (pyRstrip spec.data))))]
        | none => []

/-! ## Run-Export Propagator (src/conda_build/render.py `add_upstream_pins`)

`_read_upstream_pin_files` (solver + package download + run-export fetch for
one environment) is a collaborator boundary: its result -- the resolved
dependency list, the unsatisfiability diagnostic, and the merged run-export
mapping of the explicitly required dependencies -- is an input.  The build
side is read first; the host side is read after the build `strong` exports
have been appended to the host requirements, so it is a function of that
list.  Python sets become `Finset String`; the `build_deps` variable, which
across branches holds a list, a set, or `None` (from the
`set(...).update(...)` expression, which returns `None`), becomes `PyDeps`. -/

/-- The five run-export categories read by `add_upstream_pins`. -/
structure RunExports where
  weak : List String
  strong : List String
  noarch : List String
  weak_constrains : List String
  strong_constrains : List String
deriving DecidableEq, Repr

/-- The empty run-export mapping. -/
def RunExports.empty : RunExports := ⟨[], [], [], [], []⟩

/-- Result of `_read_upstream_pin_files` for one environment. -/
structure ReadResult where
  deps : List String
  unsat : Option String
  exports : RunExports
deriving DecidableEq, Repr

/-- A requirements mapping; a missing key is `none`. -/
structure Reqs where
  build : Option (List String)
  host : Option (List String)
  run : Option (List String)
  run_constrained : Option (List String)
deriving DecidableEq, Repr

/-- A value of the Python `deps` variables in the final write-back loop of
`add_upstream_pins`: a list, a set, or `None`. -/
inductive PyDeps where
  | pnone
  | plist (l : List String)
  | pset (s : Finset String)
deriving DecidableEq

/-- Python truthiness of a `PyDeps` value. -/
def PyDeps.truthy : PyDeps → Bool
  | .pnone => false
  | .plist l => decide (l ≠ [])
  | .pset s => decide (s ≠ ∅)

/-- A finalized requirements section: untouched (possibly missing) original,
or overwritten with `list(deps)` of a list or set. -/
inductive SecVal where
  | missing
  | strs (l : List String)
  | sset (s : Finset String)
deriving DecidableEq

/-- Membership in a finalized section. -/
def SecVal.mem (x : String) : SecVal → Prop
  | .missing => False
  | .strs l => x ∈ l
  | .sset s => x ∈ s

instance (x : String) (v : SecVal) : Decidable (SecVal.mem x v) := by
  cases v <;> simp [SecVal.mem] <;> infer_instance

/-- The write-back step `if deps: requirements[section] = list(deps)`. -/
def writeSec (cur : SecVal) (d : PyDeps) : SecVal :=
  if d.truthy then
    match d with
    | .plist l => .strs l
    | .pset s => .sset s
    | .pnone => cur
  else cur

/-- Initial finalized view of a section. -/
def secOf : Option (List String) → SecVal
  | none => .missing
  | some l => .strs l

structure FinalReqs where
  build : SecVal
  host : SecVal
  run : SecVal
  run_constrained : SecVal
deriving DecidableEq

structure UpstreamPinInputs where
  is_cross : Bool
  noarch : Bool
  noarch_python : Bool
  build_is_host : Bool
  /-- `m.get_section("requirements")`, also `m.meta["requirements"]`. -/
  reqs : Reqs
  /-- Result of `_read_upstream_pin_files(m, "build", ...)`. -/
  buildRead : ReadResult
  /-- `utils.expand_reqs(matching_output[0].get("requirements", {}))` of the
  output whose name matches the job, when one exists. -/
  matchingOutput : Option Reqs
  /-- Result of `_read_upstream_pin_files(m, "host", ...)`, as a function of
  the host requirement list it resolves. -/
  hostRead : List String → ReadResult

structure UpstreamPinResult where
  reqs : FinalReqs
  /-- The host requirements list after the build `strong` exports were
  appended, i.e. what host resolution sees; `none` when not cross-compiling. -/
  hostAfterExtend : Option (List String)
  build_unsat : Option String
  host_unsat : Option String

/-- The requirements mapping the cross branch ends up writing into: the
job's own, or the matching output's expanded mapping when the job's host
list is empty and such an output exists. -/
def baseReqsOf (inp : UpstreamPinInputs) : Reqs :=
  if inp.reqs.host.getD [] = [] then
    match inp.matchingOutput with
    | some outReqs => outReqs
    | none => inp.reqs
  else inp.reqs

/-- The base host requirement list the build `strong` exports extend: the
job's own host section, or the matching output's host section when the job's
is empty. -/
def hostBaseOf (inp : UpstreamPinInputs) : List String :=
  (baseReqsOf inp).host.getD []

/-- render.py `add_upstream_pins`. -/
def add_upstream_pins (inp : UpstreamPinInputs) : UpstreamPinResult :=
  let build_deps0 := inp.buildRead.deps
  let build_unsat := inp.buildRead.unsat
  let exB := inp.buildRead.exports
  let noarchish := inp.noarch || inp.noarch_python
  if inp.is_cross then
    -- base dict: the job's requirements, or the matching output's when the
    -- host list is empty and such an output exists
    let baseReqs := baseReqsOf inp
    let host_reqs := hostBaseOf inp ++ exB.strong
    let baseReqs := { baseReqs with host := some host_reqs }
    let hostR := inp.hostRead host_reqs
    let exH := hostR.exports
    let extra_run_specs : Finset String :=
      if noarchish then exH.noarch.toFinset
      else (exH.strong ++ exH.weak ++ exB.strong).toFinset
    let extra_run_constrained : Finset String :=
      if noarchish then ∅
      else (exH.strong_constrains ++ exH.weak_constrains ++
        exB.strong_constrains).toFinset
    let run_deps := extra_run_specs ∪ (baseReqs.run.getD []).toFinset
    let run_constrained_deps :=
      extra_run_constrained ∪ (baseReqs.run_constrained.getD []).toFinset
    { reqs :=
        { build := writeSec (secOf baseReqs.build) (.plist build_deps0)
          host := writeSec (.strs host_reqs) (.plist hostR.deps)
          run := writeSec (secOf baseReqs.run) (.pset run_deps)
          run_constrained :=
            writeSec (secOf baseReqs.run_constrained) (.pset run_constrained_deps) }
      hostAfterExtend := some host_reqs
      build_unsat := build_unsat
      host_unsat := hostR.unsat }
  else
    let st :=
      if noarchish then
        if inp.build_is_host then
          -- `set(build_deps or []).update(...)` evaluates to None
          (exB.noarch.toFinset, (∅ : Finset String), PyDeps.pnone,
            PyDeps.plist [])
        else
          ((∅ : Finset String), (∅ : Finset String),
            PyDeps.pset build_deps0.toFinset, PyDeps.plist [])
      else
        if inp.build_is_host then
          -- same update-on-None pattern as the noarch branch
          ((exB.strong ++ exB.weak).toFinset,
            (exB.strong_constrains ++ exB.weak_constrains).toFinset,
            PyDeps.pnone, PyDeps.plist [])
        else
          (exB.strong.toFinset, exB.strong_constrains.toFinset,
            PyDeps.plist build_deps0, PyDeps.pset exB.strong.toFinset)
    let extra_run_specs := st.1
    let extra_run_constrained := st.2.1
    let build_deps := st.2.2.1
    let host_deps := st.2.2.2
    let run_deps := extra_run_specs ∪ (inp.reqs.run.getD []).toFinset
    let run_constrained_deps :=
      extra_run_constrained ∪ (inp.reqs.run_constrained.getD []).toFinset
    { reqs :=
        { build := writeSec (secOf inp.reqs.build) build_deps
          host := writeSec (secOf inp.reqs.host) host_deps
          run := writeSec (secOf inp.reqs.run) (.pset run_deps)
          run_constrained :=
            writeSec (secOf inp.reqs.run_constrained) (.pset run_constrained_deps) }
      hostAfterExtend := none
      build_unsat := build_unsat
      host_unsat := none }

/-! ## Variant Distributor (src/conda_build/render.py `distribute_variants`)

`MetaData` collaborators are modelled from the spec where their code is not
part of the given sources:
* `get_used_loop_vars`/`get_used_vars` -- the used-variables set of the
  template, an input;
* `get_reduced_variant_set` -- "reduce the matrix to the distinct
  projections onto that set", keeping the first full variant for each
  distinct projection;
* `parse_until_resolved` -- an input function giving, per clone, success,
  the benign stop signal (`SystemExit`/`CondaBuildUserError`), or another
  failure;
* `filter_by_key_value` for the noarch reduction -- keep the variants whose
  `python` value is the selected one;
* `dist()` -- the job identity, an input constant.
A variant is an ordered mapping from variable names to values. -/

def Variant := List (String × String)
deriving instance DecidableEq, Repr for Variant

/-- Projection of a variant onto the used-variables set. -/
def projectVariant (used : List String) (v : Variant) :
    List (String × Option String) :=
  used.map (fun k => (k, List.lookup k v))

/-- Accumulating pass keeping the first variant of each distinct projection. -/
def reduceVariantsAux (used : List String) (acc : List Variant) :
    List Variant → List Variant
  | [] => acc
  | v :: vs =>
    if acc.any (fun u => projectVariant used u = projectVariant used v) then
      reduceVariantsAux used acc vs
    else reduceVariantsAux used (acc ++ [v]) vs

/-- Modelled from the spec: `MetaData.get_reduced_variant_set`, the distinct
projections of the matrix onto the used variables ("top loop"), represented
by the first full variant carrying each distinct projection. -/
def get_reduced_variant_set (used : List String) (variants : List Variant) :
    List Variant :=
  reduceVariantsAux used [] variants

/-- Outcome of re-evaluating one clone (`mv.parse_until_resolved`). -/
inductive ParseOutcome where
  | ok
  /-- `SystemExit` or `CondaBuildUserError`: the benign stop signal. -/
  | benign
  | fatal (msg : String)
deriving DecidableEq, Repr

/-- The key of the `rendered_metadata` dict: `mv.dist()`, the target
platform, and the ordered (used variable, value) tuple. -/
def JobKey := String × Option String × List (String × Option String)
deriving instance DecidableEq, Repr for JobKey

/-- Python dict insertion: an existing key keeps its position and gets the
new value; a new key is appended. -/
def dictInsert (d : List (JobKey × Variant)) (k : JobKey) (v : Variant) :
    List (JobKey × Variant) :=
  if d.any (fun p => p.1 = k) then
    d.map (fun p => if p.1 = k then (k, v) else p)
  else d ++ [(k, v)]

structure DistInputs where
  /-- `m.noarch or m.noarch_python`. -/
  noarchish : Bool
  /-- The full variant matrix. -/
  variants : List Variant
  /-- The used-variables set of the outer template. -/
  usedVars : List String
  /-- `mv.dist()`, the job identity. -/
  dist : String
  /-- `mv.config.subdir`, the platform fallback. -/
  subdir : String
  /-- Per-clone `parse_until_resolved` outcome. -/
  parse : Variant → ParseOutcome

/-- The noarch reduction: keep only variants carrying the highest `python`
version (modelled from the spec; uses the version-ordering collaborator).
`none` models failure (no python in the matrix, or an unparsable version). -/
def noarchPythonReduction (variants : List Variant) : Option (List Variant) := do
  let pythons := (variants.filterMap (fun v => List.lookup "python" v)).eraseDups
  let firstP ← pythons.head?
  let best ← pythons.foldlM
    (fun (best : String) p => do
      let bo ← parseVersionOrder (String.mk ((pySplitWs best.data).headD []))
      let po ← parseVersionOrder (String.mk ((pySplitWs p.data).headD []))
      pure (if versionLt bo po then p else best))
    firstP
  pure (variants.filter (fun v => List.lookup "python" v = some best))

/-- The `rendered_metadata` key of one clone. -/
def jobKeyOf (inp : DistInputs) (variant : Variant) : JobKey :=
  (inp.dist,
    some ((List.lookup "target_platform" variant).getD inp.subdir),
    projectVariant inp.usedVars variant)

/-- The clone loop of `distribute_variants`: re-evaluate each top-loop
variant, swallow the benign stop signal (the clone is still recorded),
propagate any other failure. -/
def distLoop (inp : DistInputs) (d : List (JobKey × Variant)) :
    List Variant → Except String (List (JobKey × Variant))
  | [] => .ok d
  | variant :: rest =>
    match inp.parse variant with
    | .fatal msg => .error msg
    | _ => distLoop inp (dictInsert d (jobKeyOf inp variant) variant) rest

/-- render.py `distribute_variants`: reduce the matrix, clone the template
per distinct projection, re-evaluate each clone -- swallowing the benign
stop signal -- and key the surviving clones by (dist, platform, used-variant
tuple).  `Except.error` models a propagated failure. -/
def distribute_variants (inp : DistInputs) : Except String (List Variant) := do
  let variants ←
    if inp.noarchish then
      match noarchPythonReduction inp.variants with
      | some vs => Except.ok vs
      | none => Except.error "noarch python reduction failed"
    else Except.ok inp.variants
  let top_loop := get_reduced_variant_set inp.usedVars variants
  let d ← distLoop inp [] top_loop
  pure (d.map (fun p => p.2))

/-! ## Normalized view of the content-hash pipeline (proof infrastructure)

`compute_content_hash` factors through `normEntry`: the sort key and the
skip test depend only on the path, and each entry's hash contribution
depends only on its normalized form. -/

/-- Sort key of a normalized entry. -/
def nkey (sep : Char) (e : List String × NormEntry) : List Char :=
  platformPathStr sep e.1

/-- The sortedness relation the insertion sort establishes. -/
def nle (sep : Char) (a b : List String × NormEntry) : Prop :=
  pyStrLt (nkey sep b) (nkey sep a) = false

/-- Insertion step on normalized entries, mirroring `insertByKey`. -/
def insertN (sep : Char) (e : List String × NormEntry) :
    List (List String × NormEntry) → List (List String × NormEntry)
  | [] => [e]
  | f :: fs =>
    if pyStrLt (nkey sep f) (nkey sep e) then f :: insertN sep e fs
    else e :: f :: fs

/-- Sort of normalized entries, mirroring `sortEntries`. -/
def sortN (sep : Char) (entries : List (List String × NormEntry)) :
    List (List String × NormEntry) :=
  entries.foldr (insertN sep) []

/-- The non-skipped test on a normalized entry. -/
def keepEntryN (skip : List String) (e : List String × NormEntry) : Bool :=
  !(skip ≠ [] && skipMatches skip (relPathStr e.1))

/-- Body bytes of a normalized entry (between path and separator). -/
def nbody : NormEntry → List Char
  | .nlink t => 'L' :: t
  | .ndir => ['D']
  | .nfile c => 'F' :: c

/-- Hash contribution of a normalized entry. -/
def encodeNorm (e : List String × NormEntry) : List Char :=
  relPathStr e.1 ++ nbody e.2 ++ ['-']

/-- The hashed byte stream over normalized entries. -/
def normStream (sep : Char) (skip : List String)
    (l : List (List String × NormEntry)) : List Char :=
  ((sortN sep l).filter (keepEntryN skip)).foldr
    (fun e acc => encodeNorm e ++ acc) []

/-! ## Concrete instances used by witnesses and counterexamples -/

/-- Non-cross, non-noarch, build-is-not-host job with one strong and one
weak build run-export. -/
def C1ex : UpstreamPinInputs :=
  { is_cross := false
    noarch := false
    noarch_python := false
    build_is_host := false
    reqs := ⟨some ["gcc"], none, some ["existing 2.0"], none⟩
    buildRead := ⟨["gcc 13.1 h0"], none,
      { RunExports.empty with strong := ["s 1.0"], weak := ["w 1.0"] }⟩
    matchingOutput := none
    hostRead := fun _ => ⟨[], none, RunExports.empty⟩ }

/-- Cross-compiling job with a nonempty host section and one strong build
run-export. -/
def C1exCross : UpstreamPinInputs :=
  { is_cross := true
    noarch := false
    noarch_python := false
    build_is_host := false
    reqs := ⟨some ["gcc"], some ["a"], some [], none⟩
    buildRead := ⟨["gcc 13.1 h0"], none,
      { RunExports.empty with strong := ["s 1.0"], weak := ["w 1.0"] }⟩
    matchingOutput := none
    hostRead := fun _ => ⟨[], none, RunExports.empty⟩ }

/-- Non-cross job whose build environment is also the host environment,
with a weak build run-export that the spec expects to be folded into the
build section. -/
def C2ex : UpstreamPinInputs :=
  { is_cross := false
    noarch := false
    noarch_python := false
    build_is_host := true
    reqs := ⟨some ["bzip2"], none, some [], none⟩
    buildRead := ⟨["bzip2 1.0.8 h0"], none,
      { RunExports.empty with weak := ["zlib 1.2"] }⟩
    matchingOutput := none
    hostRead := fun _ => ⟨[], none, RunExports.empty⟩ }

def C6v1 : Variant := [("python", "3.9")]

def C6v2 : Variant := [("python", "3.10")]

/-- Two-variant matrix, template using only `python`. -/
def C6exPy : DistInputs :=
  { noarchish := false
    variants := [C6v1, C6v2]
    usedVars := ["python"]
    dist := "pkg-1.0-0"
    subdir := "linux-64"
    parse := fun _ => .ok }

/-- Same matrix, template using no variant variables. -/
def C6exNoVars : DistInputs :=
  { noarchish := false
    variants := [C6v1, C6v2]
    usedVars := []
    dist := "pkg-1.0-0"
    subdir := "linux-64"
    parse := fun _ => .ok }

/-- Same matrix, template using `python`, where re-evaluating the second
clone raises the benign stop signal. -/
def C7ex : DistInputs :=
  { noarchish := false
    variants := [C6v1, C6v2]
    usedVars := ["python"]
    dist := "pkg-1.0-0"
    subdir := "linux-64"
    parse := fun v => if v = C6v2 then .benign else .ok }

/-- Same matrix, template using `python`, where re-evaluating the second
clone raises a non-benign failure. -/
def C7exFatal : DistInputs :=
  { noarchish := false
    variants := [C6v1, C6v2]
    usedVars := ["python"]
    dist := "pkg-1.0-0"
    subdir := "linux-64"
    parse := fun v => if v = C6v2 then .fatal "boom" else .ok }

/-- A resolver call whose solver reports an unsatisfiable environment, with
fallback tolerated. -/
def C8exPermit : EnvDepInputs :=
  { env := "host"
    specs := ["bar"]
    variant := []
    exclude := none
    outputs := []
    version := "1.0"
    extra_specs := []
    permit_unsatisfiable_variants := true
    fallback := ["bar"]
    solver := fun _ => .fail (some ["libfoo", "libbar"]) "unused" }

/-- The same call without tolerance. -/
def C8exNoPermit : EnvDepInputs :=
  { C8exPermit with permit_unsatisfiable_variants := false }

/-- The diagnostic captured from a solver error: the joined package list
when the exception carries one, else its message. -/
def unsatDiag (pk : Option (List String)) (msg : String) : String :=
  match pk with
  | some ps => joinComma ps
  | none => msg

/-! ## Helper lemmas: the code-point string order is a linear order -/

theorem pyStrLt_irrefl (l : List Char) : pyStrLt l l = false := by
  induction l with
  | nil => rfl
  | cons a as ih => simp [pyStrLt, ih]

theorem pyStrLt_cons (x y : Char) (xs ys : List Char) :
    pyStrLt (x :: xs) (y :: ys) =
      if x.toNat < y.toNat then true
      else if y.toNat < x.toNat then false
      else pyStrLt xs ys := rfl

theorem pyStrLt_trans {a b c : List Char} (h1 : pyStrLt a b = true)
    (h2 : pyStrLt b c = true) : pyStrLt a c = true := by
  induction a generalizing b c with
  | nil =>
    cases c with
    | nil => cases b <;> simp [pyStrLt] at h1 h2
    | cons x xs => rfl
  | cons x xs ih =>
    cases b with
    | nil => simp [pyStrLt] at h1
    | cons y ys =>
      cases c with
      | nil => simp [pyStrLt] at h2
      | cons z zs =>
        rw [pyStrLt_cons] at h1 h2 ⊢
        rcases Nat.lt_trichotomy x.toNat y.toNat with hxy | hxy | hxy
        · rcases Nat.lt_trichotomy y.toNat z.toNat with hyz | hyz | hyz
          · rw [if_pos (by omega)]
          · rw [if_pos (by omega)]
          · rw [if_neg (by omega), if_pos hyz] at h2
            exact absurd h2 (by simp)
        · rcases Nat.lt_trichotomy y.toNat z.toNat with hyz | hyz | hyz
          · rw [if_pos (by omega)]
          · rw [if_neg (by omega), if_neg (by omega)] at h1
            rw [if_neg (by omega), if_neg (by omega)] at h2
            rw [if_neg (by omega), if_neg (by omega)]
            exact ih h1 h2
          · rw [if_neg (by omega), if_pos hyz] at h2
            exact absurd h2 (by simp)
        · rw [if_neg (by omega), if_pos hxy] at h1
          exact absurd h1 (by simp)

theorem pyStrLt_antisymm {a b : List Char} (h1 : pyStrLt a b = false)
    (h2 : pyStrLt b a = false) : a = b := by
  induction a generalizing b with
  | nil => cases b with
    | nil => rfl
    | cons y ys => simp [pyStrLt] at h1
  | cons x xs ih =>
    cases b with
    | nil => simp [pyStrLt] at h2
    | cons y ys =>
      rw [pyStrLt_cons] at h1 h2
      rcases Nat.lt_trichotomy x.toNat y.toNat with hxy | hxy | hxy
      · rw [if_pos hxy] at h1
        exact absurd h1 (by simp)
      · rw [if_neg (by omega), if_neg (by omega)] at h1
        rw [if_neg (by omega), if_neg (by omega)] at h2
        have hchar : x = y := Char.eq_of_val_eq (UInt32.ext hxy)
        rw [hchar, ih h1 h2]
      · rw [if_pos hxy] at h2
        exact absurd h2 (by simp)

theorem pyStrLt_asymm {a b : List Char} (h : pyStrLt a b = true) :
    pyStrLt b a = false := by
  by_contra hba
  have hba' : pyStrLt b a = true := by revert hba; cases pyStrLt b a <;> simp
  have := pyStrLt_trans h hba'
  rw [pyStrLt_irrefl] at this
  exact absurd this (by simp)

theorem pyStrLe_trans {a b c : List Char} (h1 : pyStrLt b a = false)
    (h2 : pyStrLt c b = false) : pyStrLt c a = false := by
  by_contra h
  have hca : pyStrLt c a = true := by revert h; cases pyStrLt c a <;> simp
  by_cases hbc : pyStrLt b c = true
  · have := pyStrLt_trans hbc hca
    rw [this] at h1
    exact absurd h1 (by simp)
  · have hbc' : pyStrLt b c = false := by revert hbc; cases pyStrLt b c <;> simp
    rw [pyStrLt_antisymm hbc' h2] at h1
    rw [hca] at h1
    exact absurd h1 (by simp)

/-! ## Helper lemmas: the normalized insertion sort -/

theorem insertN_perm (sep : Char) (e : List String × NormEntry) :
    ∀ l, (insertN sep e l).Perm (e :: l)
  | [] => .refl _
  | f :: fs => by
    unfold insertN
    split
    · exact ((insertN_perm sep e fs).cons f).trans (List.Perm.swap e f fs)
    · exact .refl _

theorem mem_insertN {sep : Char} {e x : List String × NormEntry}
    {l : List (List String × NormEntry)} (h : x ∈ insertN sep e l) :
    x = e ∨ x ∈ l := by
  have := (insertN_perm sep e l).mem_iff.mp h
  simpa using this

theorem insertN_sorted {sep : Char} (e : List String × NormEntry) :
    ∀ {l}, l.Pairwise (nle sep) → (insertN sep e l).Pairwise (nle sep) := by
  intro l
  induction l with
  | nil => intro _; simp [insertN]
  | cons f fs ih =>
    intro hs
    rw [List.pairwise_cons] at hs
    unfold insertN
    split
    · rename_i hlt
      rw [List.pairwise_cons]
      refine ⟨?_, ih hs.2⟩
      intro x hx
      rcases mem_insertN hx with rfl | hx
      · exact pyStrLt_asymm hlt
      · exact hs.1 x hx
    · rename_i hnlt
      have hef : nle sep e f := by
        revert hnlt
        unfold nle
        cases pyStrLt (nkey sep f) (nkey sep e) <;> simp
      rw [List.pairwise_cons]
      refine ⟨?_, List.pairwise_cons.mpr hs⟩
      intro x hx
      rcases List.mem_cons.mp hx with rfl | hx
      · exact hef
      · exact pyStrLe_trans hef (hs.1 x hx)

theorem sortN_perm (sep : Char) : ∀ l, (sortN sep l).Perm l
  | [] => .refl _
  | x :: xs => by
    have h1 := insertN_perm sep x (sortN sep xs)
    exact h1.trans ((sortN_perm sep xs).cons x)

theorem sortN_sorted (sep : Char) : ∀ l, (sortN sep l).Pairwise (nle sep)
  | [] => by simp [sortN]
  | x :: xs => insertN_sorted x (sortN_sorted sep xs)

theorem sortN_eq_self {sep : Char} :
    ∀ {l}, l.Pairwise (nle sep) → sortN sep l = l := by
  intro l
  induction l with
  | nil => intro _; rfl
  | cons x xs ih =>
    intro hs
    rw [List.pairwise_cons] at hs
    show insertN sep x (sortN sep xs) = x :: xs
    rw [ih hs.2]
    cases xs with
    | nil => rfl
    | cons f fs =>
      unfold insertN
      rw [if_neg]
      have := hs.1 f (by simp)
      unfold nle at this
      simp [this]

theorem sortN_eq_of_perm {sep : Char} {l1 l2 : List (List String × NormEntry)}
    (hp : l1.Perm l2) (hnd : (l1.map (nkey sep)).Nodup) :
    sortN sep l1 = sortN sep l2 := by
  have hnd2 : (l2.map (nkey sep)).Nodup := ((hp.map (nkey sep)).nodup_iff).mp hnd
  have hpw1 : l1.Pairwise (fun a b => nkey sep a ≠ nkey sep b) :=
    List.pairwise_map.mp hnd
  have hpw2 : l2.Pairwise (fun a b => nkey sep a ≠ nkey sep b) :=
    List.pairwise_map.mp hnd2
  have hpwS1 : (sortN sep l1).Pairwise (fun a b => nkey sep a ≠ nkey sep b) :=
    (List.Perm.pairwise_iff (fun h => Ne.symm h) (sortN_perm sep l1)).mpr hpw1
  have hpwS2 : (sortN sep l2).Pairwise (fun a b => nkey sep a ≠ nkey sep b) :=
    (List.Perm.pairwise_iff (fun h => Ne.symm h) (sortN_perm sep l2)).mpr hpw2
  have hr1 : (sortN sep l1).Pairwise (fun a b =>
      pyStrLt (nkey sep a) (nkey sep b) = true ∨ a = b) := by
    have := (sortN_sorted sep l1).and hpwS1
    refine this.imp ?_
    rintro a b ⟨hle, hne⟩
    left
    by_cases h : pyStrLt (nkey sep a) (nkey sep b) = true
    · exact h
    · have h' : pyStrLt (nkey sep a) (nkey sep b) = false := by
        revert h; cases pyStrLt (nkey sep a) (nkey sep b) <;> simp
      exact absurd (pyStrLt_antisymm h' hle) hne
  have hr2 : (sortN sep l2).Pairwise (fun a b =>
      pyStrLt (nkey sep a) (nkey sep b) = true ∨ a = b) := by
    have := (sortN_sorted sep l2).and hpwS2
    refine this.imp ?_
    rintro a b ⟨hle, hne⟩
    left
    by_cases h : pyStrLt (nkey sep a) (nkey sep b) = true
    · exact h
    · have h' : pyStrLt (nkey sep a) (nkey sep b) = false := by
        revert h; cases pyStrLt (nkey sep a) (nkey sep b) <;> simp
      exact absurd (pyStrLt_antisymm h' hle) hne
  haveI : IsAntisymm (List String × NormEntry) (fun a b =>
      pyStrLt (nkey sep a) (nkey sep b) = true ∨ a = b) := by
    constructor
    rintro a b (hab | rfl) (hba | hba)
    · rw [pyStrLt_asymm hab] at hba
      exact absurd hba (by simp)
    · exact hba.symm
    · rfl
    · rfl
  exact List.eq_of_perm_of_sorted
    ((sortN_perm sep l1).trans (hp.trans (sortN_perm sep l2).symm)) hr1 hr2

/-! ## Helper lemmas: `compute_content_hash` factors through `normEntry` -/

theorem normEntry_fst (e : List String × FsEntry) : (normEntry e).1 = e.1 := rfl

theorem map_insertByKey (sep : Char) (e : List String × FsEntry) :
    ∀ l, (insertByKey sep e l).map normEntry =
      insertN sep (normEntry e) (l.map normEntry)
  | [] => rfl
  | f :: fs => by
    show (insertByKey sep e (f :: fs)).map normEntry = _
    unfold insertByKey insertN
    have hk : nkey sep (normEntry f) = platformPathStr sep f.1 := rfl
    have hke : nkey sep (normEntry e) = platformPathStr sep e.1 := rfl
    simp only [List.map_cons, hk, hke]
    split
    · simp only [List.map_cons, map_insertByKey sep e fs]
    · rfl

theorem map_sortEntries (sep : Char) :
    ∀ l, (sortEntries sep l).map normEntry = sortN sep (l.map normEntry)
  | [] => rfl
  | x :: xs => by
    show (insertByKey sep x (sortEntries sep xs)).map normEntry = _
    rw [map_insertByKey, map_sortEntries sep xs]
    rfl

theorem encodeEntry_eq_norm (e : List String × FsEntry) :
    encodeEntry e = encodeNorm (normEntry e) := by
  obtain ⟨p, ent⟩ := e
  cases ent with
  | file text c => cases text <;> rfl
  | dir => rfl
  | symlink t => rfl

theorem stream_filter_map (skip : List String) :
    ∀ l : List (List String × FsEntry),
      (l.filter (fun e => !(skip ≠ [] && skipMatches skip (relPathStr e.1)))).foldr
          (fun e acc => encodeEntry e ++ acc) [] =
        ((l.map normEntry).filter (keepEntryN skip)).foldr
          (fun e acc => encodeNorm e ++ acc) []
  | [] => rfl
  | x :: xs => by
    have hcond : keepEntryN skip (normEntry x) =
        !(skip ≠ [] && skipMatches skip (relPathStr x.1)) := rfl
    simp only [List.map_cons, List.filter_cons, hcond]
    split
    · rw [List.foldr_cons, List.foldr_cons, stream_filter_map skip xs,
        encodeEntry_eq_norm]
    · exact stream_filter_map skip xs

theorem compute_content_hash_eq_norm (sep : Char) (skip : List String)
    (t : List (List String × FsEntry)) :
    compute_content_hash sep skip t = normStream sep skip (t.map normEntry) := by
  unfold compute_content_hash normStream
  rw [← map_sortEntries]
  exact stream_filter_map skip (sortEntries sep t)

theorem normStream_foldr_append (f : (List String × NormEntry) → List Char) :
    ∀ l1 l2 : List (List String × NormEntry),
      (l1 ++ l2).foldr (fun e acc => f e ++ acc) [] =
        l1.foldr (fun e acc => f e ++ acc) [] ++
          l2.foldr (fun e acc => f e ++ acc) []
  | [], _ => rfl
  | x :: xs, l2 => by
    simp only [List.cons_append, List.foldr_cons,
      normStream_foldr_append f xs l2, List.append_assoc]

/-- C10: the claim states that any content, name, or type difference changes
the digest.  It is false at these explicit trees: the serialization has no
length delimiters, so the single file `a` with content `1-bF2` produces
exactly the byte stream of the two files `a` = `1`, `b` = `2`; the hash
input streams are equal, hence so are the digests, although the trees differ
in names and contents. -/
theorem C10_counterexample :
    compute_content_hash '/' [] [(["a"], FsEntry.file true "1-bF2".data)] =
      compute_content_hash '/' []
        [(["a"], FsEntry.file true "1".data), (["b"], FsEntry.file true "2".data)] ∧
    ([(["a"], FsEntry.file true "1-bF2".data)].map normEntry ≠
      [(["a"], FsEntry.file true "1".data),
        (["b"], FsEntry.file true "2".data)].map normEntry) := by
  constructor
  · rfl
  · decide

/-- C10 (amended): on one platform (one path separator), two trees whose
normalized entries agree up to enumeration order -- same relative names,
entry types, symlink targets, and byte-for-byte contents after CRLF/slash
normalization -- hash to the same byte stream, regardless of traversal
order; and changing only a symlink's target string changes the stream.
(Full injectivity fails: see the counterexample.) -/
theorem C10_theorem :
    (∀ (sep : Char) (skip : List String) (t1 t2 : List (List String × FsEntry)),
      (t1.map normEntry).Perm (t2.map normEntry) →
      (t1.map (fun e => platformPathStr sep e.1)).Nodup →
      compute_content_hash sep skip t1 = compute_content_hash sep skip t2) ∧
    (∀ (sep : Char) (pre post : List (List String × FsEntry)) (p : List String)
      (ta tb : String),
      ((pre ++ (p, FsEntry.symlink ta) :: post).map normEntry).Pairwise (nle sep) →
      slashNormalize ta.data ≠ slashNormalize tb.data →
      compute_content_hash sep [] (pre ++ (p, FsEntry.symlink ta) :: post) ≠
        compute_content_hash sep [] (pre ++ (p, FsEntry.symlink tb) :: post)) := by
  constructor
  · intro sep skip t1 t2 hperm hnd
    rw [compute_content_hash_eq_norm, compute_content_hash_eq_norm]
    unfold normStream
    have hnd1 : ((t1.map normEntry).map (nkey sep)).Nodup := by
      have : (t1.map normEntry).map (nkey sep) =
          t1.map (fun e => platformPathStr sep e.1) := by
        rw [List.map_map]; rfl
      rw [this]; exact hnd
    rw [sortN_eq_of_perm hperm hnd1]
  · intro sep pre post p ta tb hpw hne
    set na := NormEntry.nlink (slashNormalize ta.data) with hna
    set nb := NormEntry.nlink (slashNormalize tb.data) with hnb
    have hmapa : (pre ++ (p, FsEntry.symlink ta) :: post).map normEntry =
        pre.map normEntry ++ (p, na) :: post.map normEntry := by
      rw [List.map_append, List.map_cons]; rfl
    have hmapb : (pre ++ (p, FsEntry.symlink tb) :: post).map normEntry =
        pre.map normEntry ++ (p, nb) :: post.map normEntry := by
      rw [List.map_append, List.map_cons]; rfl
    rw [hmapa] at hpw
    -- the sortedness of the second tree follows: the relation only looks at
    -- the path keys, which agree
    have hpwb : (pre.map normEntry ++ (p, nb) :: post.map normEntry).Pairwise
        (nle sep) := by
      rw [List.pairwise_append] at hpw ⊢
      obtain ⟨hA, hxB, hcross⟩ := hpw
      rw [List.pairwise_cons] at hxB
      refine ⟨hA, List.pairwise_cons.mpr ⟨fun b hb => hxB.1 b hb, hxB.2⟩, ?_⟩
      intro x hx y hy
      rcases List.mem_cons.mp hy with rfl | hy
      · exact hcross x hx (p, na) (List.mem_cons_self _ _)
      · exact hcross x hx y (List.mem_cons_of_mem _ hy)
    intro heq
    rw [compute_content_hash_eq_norm, compute_content_hash_eq_norm, hmapa,
      hmapb] at heq
    unfold normStream at heq
    rw [sortN_eq_self hpw, sortN_eq_self hpwb] at heq
    have hfilter : ∀ l : List (List String × NormEntry),
        l.filter (keepEntryN []) = l :=
      fun l => List.filter_eq_self.mpr (fun a _ => rfl)
    rw [hfilter, hfilter] at heq
    rw [normStream_foldr_append, normStream_foldr_append] at heq
    have heq2 := List.append_cancel_left heq
    rw [List.foldr_cons, List.foldr_cons] at heq2
    have heq3 : encodeNorm (p, na) ++
        (post.map normEntry).foldr (fun e acc => encodeNorm e ++ acc) [] =
        encodeNorm (p, nb) ++
        (post.map normEntry).foldr (fun e acc => encodeNorm e ++ acc) [] := heq2
    have heq4 : encodeNorm (p, na) = encodeNorm (p, nb) :=
      List.append_cancel_right heq3
    unfold encodeNorm at heq4
    have heq5 := List.append_cancel_right heq4
    have heq6 := List.append_cancel_left heq5
    rw [hna, hnb] at heq6
    unfold nbody at heq6
    exact hne (by injection heq6)

/-- C10 witness: a tree enumerated in a different order, with a CRLF file
normalized to the same bytes, hashes identically; and two one-symlink trees
differing only in the target hash differently. -/
theorem C10_witness :
    compute_content_hash '/' []
        [(["b"], FsEntry.dir), (["a"], FsEntry.file true "hi\r\nx".data)] =
      compute_content_hash '/' []
        [(["a"], FsEntry.file true "hi\nx".data), (["b"], FsEntry.dir)] ∧
    compute_content_hash '/' [] [(["l"], FsEntry.symlink "x")] ≠
      compute_content_hash '/' [] [(["l"], FsEntry.symlink "y")] :=
  ⟨C10_theorem.1 '/' [] _ _ (by decide) (by decide),
   C10_theorem.2 '/' [] [] ["l"] "x" "y" (by simp) (by decide)⟩

/-- C3: the claim's expected outputs are wrong.  At the explicit input
`("1.2.3", "x.x", "x.x")` the evaluator does not return `">=1.2,<1.3"`: the
upper-bound increment appends the `.0a0` pre-release suffix
(`_increment` with `alpha_ver = False`), so the result is
`">=1.2,<1.3.0a0"`. -/
theorem C3_counterexample :
    apply_pin_expressions "1.2.3" "x.x" "x.x" ≠ some ">=1.2,<1.3" := by
  decide

/-- C3 (amended): `apply_pin_expressions("1.2.3", min_pin="x.x",
max_pin="x.x")` returns exactly `">=1.2,<1.3.0a0"`, and
`apply_pin_expressions("1.2.3", min_pin="x.x.x", max_pin="x.x.x")` returns
exactly `">=1.2.3,<1.2.4.0a0"`: the truncated-and-incremented upper bound
carries a `.0a0` suffix excluding pre-releases of the next version. -/
theorem C3_theorem :
    apply_pin_expressions "1.2.3" "x.x" "x.x" = some ">=1.2,<1.3.0a0" ∧
    apply_pin_expressions "1.2.3" "x.x.x" "x.x.x" = some ">=1.2.3,<1.2.4.0a0" := by
  constructor <;> rfl

/-- C4: evaluation at the failing input.  `apply_pin_expressions` drops the
epoch (`VersionOrder(version).version[1:]`), so for `"1!1.2.3"` with pins
`x.x`/`x.x` it returns `">=1.2,<1.3.0a0"` -- but under the dependency
version ordering the upper bound `1.3.0a0` (epoch 0) is strictly below
`1!1.2.3` itself, so the claimed invariant `lower ≤ v < upper` fails: the
produced range excludes the very version being pinned. -/
theorem C4_theorem :
    apply_pin_expressions "1!1.2.3" "x.x" "x.x" = some ">=1.2,<1.3.0a0" ∧
    (do
      let upper ← parseVersionOrder "1.3.0a0"
      let v ← parseVersionOrder "1!1.2.3"
      pure (versionLt upper v) : Option Bool) = some true := by
  constructor <;> rfl

/-- C5: the claim's "otherwise all qualified occurrences are retained
verbatim" is false at the explicit section `["foo 1.0"]`: the simplifier
first normalizes each spec with `ensure_valid_spec`, which appends `.*` to a
build-less plain version, so the single qualified occurrence comes back as
`"foo 1.0.*"`, not verbatim. -/
theorem C5_counterexample :
    simplifySection ["foo 1.0"] = .ok ["foo 1.0.*"] ∧
    ("foo 1.0.*" : String) ≠ "foo 1.0" := by
  constructor
  · rfl
  · decide

/-- C5 (amended): per section, specs are grouped by name after
`ensure_valid_spec` normalization (which appends `.*` to a build-less plain
version).  Agreeing exact pins collapse -- `["foo 1.0 0", "foo 1.0 0"]`
gives `["foo 1.0 0"]` -- and disagreeing exact pins raise a conflict error;
if ANY occurrence of a name is an exact pin (specific build string, version
free of `>`, `<`, `*`), the agreeing exact pin wins and non-exact
occurrences of that name are dropped; a name with exactly one occurrence
and no qualifiers collapses to the bare name; only names without any exact
pin keep their (normalized) qualified occurrences. -/
theorem C5_theorem :
    simplifySection ["foo 1.0 0", "foo 1.0 0"] = .ok ["foo 1.0 0"] ∧
    simplifySection ["foo 1.0 0", "foo 1.0 1"] = .error "Conflicting exact pins" ∧
    simplifySection ["foo"] = .ok ["foo"] ∧
    (∀ name values, values = [[]] → simplifyName name values = .ok [name]) ∧
    (∀ name values pin, pin ∈ values.filter isExactPin →
      (∀ q ∈ values.filter isExactPin, q = pin) →
      ¬(values.length = 1 ∧ values.all (fun v => v = []) = true) →
      simplifyName name values = .ok [String.intercalate " " (name :: pin)]) ∧
    (∀ name values p q, p ∈ values.filter isExactPin →
      q ∈ values.filter isExactPin → p ≠ q →
      simplifyName name values = .error "Conflicting exact pins") := by
  refine ⟨by rfl, by rfl, by rfl, ?_, ?_, ?_⟩
  · intro name values h
    subst h
    rfl
  · intro name values pin hmem hall hnb
    have hhead : (values.filter isExactPin).headD [] = pin := by
      cases h : values.filter isExactPin with
      | nil => rw [h] at hmem; exact absurd hmem (List.not_mem_nil pin)
      | cons a t =>
        have ha : a ∈ values.filter isExactPin := by
          rw [h]; exact List.mem_cons_self a t
        simp [hall a ha]
    unfold simplifyName
    rw [if_neg hnb, if_pos (List.ne_nil_of_mem hmem), if_pos, hhead]
    rw [List.all_eq_true]
    intro q hq
    rw [decide_eq_true_eq, hall q hq, hhead]
  · intro name values p q hp hq hne
    have hnb : ¬(values.length = 1 ∧ values.all (fun v => v = []) = true) := by
      rintro ⟨-, hall⟩
      rw [List.all_eq_true] at hall
      have hpv : p ∈ values := (List.mem_filter.mp hp).1
      have hpe : isExactPin p = true := (List.mem_filter.mp hp).2
      have : p = [] := by have := hall p hpv; rwa [decide_eq_true_eq] at this
      rw [this] at hpe
      exact absurd hpe (by decide)
    unfold simplifyName
    rw [if_neg hnb, if_pos (List.ne_nil_of_mem hp), if_neg]
    intro hallb
    rw [List.all_eq_true] at hallb
    have h1 := hallb p hp
    have h2 := hallb q hq
    rw [decide_eq_true_eq] at h1 h2
    exact hne (h1.trans h2.symm)

/-- C5 witness: the per-name clauses of the amended claim at concrete
groups: a bare singleton collapses to the name, a group mixing an exact pin
with a range keeps (only) the exact pin, and two disagreeing exact pins
raise the conflict error. -/
theorem C5_witness :
    simplifyName "bar" [[]] = .ok ["bar"] ∧
    simplifyName "bar" [["1.0", "0"], [">=0.9"]] = .ok ["bar 1.0 0"] ∧
    simplifyName "bar" [["1.0", "0"], ["1.0", "1"]] =
      .error "Conflicting exact pins" :=
  ⟨C5_theorem.2.2.2.1 "bar" [[]] rfl,
   C5_theorem.2.2.2.2.1 "bar" [["1.0", "0"], [">=0.9"]] ["1.0", "0"]
     (by decide) (by decide) (by decide),
   C5_theorem.2.2.2.2.2 "bar" [["1.0", "0"], ["1.0", "1"]] ["1.0", "0"]
     ["1.0", "1"] (by decide) (by decide) (by decide)⟩

/-- C8: when the solver signals unsatisfiability or a needs-building
condition, `get_env_dependencies` with `permit_unsatisfiable_variants`
returns an empty resolved-record set and a non-null diagnostic (the joined
package list if the error carries one, else its message); without the flag
it propagates the failure unchanged. -/
theorem C8_theorem (inp : EnvDepInputs) (pk : Option (List String)) (msg : String)
    (hfail : inp.solver (envDepSet inp) = .fail pk msg) :
    (inp.permit_unsatisfiable_variants = true →
      get_env_dependencies inp =
        .ok (orFallback ((envCategorized inp).1 ++ (envCategorized inp).2.2)
              inp.fallback, [], some (unsatDiag pk msg))) ∧
    (inp.permit_unsatisfiable_variants = false →
      get_env_dependencies inp = .error (pk, msg)) := by
  constructor <;> intro hp <;>
    simp only [get_env_dependencies, hfail, hp, unsatDiag] <;> simp

/-- C8 witness: a concrete solver failure carrying a package list, run once
tolerated (empty record set plus diagnostic, falling back to the raw
section) and once not (error propagated). -/
theorem C8_witness :
    get_env_dependencies C8exPermit = .ok (["bar"], [], some "libfoo, libbar") ∧
    get_env_dependencies C8exNoPermit =
      .error (some ["libfoo", "libbar"], "unused") :=
  ⟨(C8_theorem C8exPermit (some ["libfoo", "libbar"]) "unused" rfl).1 rfl,
   (C8_theorem C8exNoPermit (some ["libfoo", "libbar"]) "unused" rfl).2 rfl⟩

/-- C9: the claim says structured documents are preferred and the legacy
text file is only consulted when they are absent.  False at this explicit
input: for an extracted package directory holding both a legacy
`run_exports` text file and a `run_exports.yaml` document, the source checks
the plain text file FIRST and returns its lines as `weak` -- without the
self-pin filtering -- ignoring the structured document. -/
theorem C9_counterexample :
    _read_specs_from_package
        (.dir (some ["foo 1.0"]) (some [("strong", ["bar 2.0"])]) none)
        "mypkg-1.0-0" = [("weak", ["foo 1.0"])] ∧
    ([("weak", ["foo 1.0"])] : RunExportsDoc) ≠ [("strong", ["bar 2.0"])] := by
  constructor
  · rfl
  · decide

/-- C9 (amended): the payload preference order depends on the location
kind.  For an extracted directory the legacy newline-delimited `run_exports`
text file is preferred (all entries `weak`, only right-stripped, self-pins
kept), with `run_exports.yaml` then `run_exports.json` as fallbacks.  For an
archive the structured documents are preferred (json, then yaml), and only
if both are absent is the legacy text consulted -- there every entry is
`weak`, entries that merely pin the package itself (its `name-version-build`
prefix up to the version) are dropped, and the survivors are deduplicated
and sorted. -/
theorem C9_theorem :
    (∀ lines y j pd, _read_specs_from_package (.dir (some lines) y j) pd =
      [("weak", lines.map (fun l => String.mk (pyRstrip l.data)))]) ∧
    (∀ doc j pd, _read_specs_from_package (.dir none (some doc) j) pd = doc) ∧
    (∀ doc pd, _read_specs_from_package (.dir none none (some doc)) pd = doc) ∧
    (∀ doc y l pd, _read_specs_from_package (.file (some doc) y l) pd = doc) ∧
    (∀ doc l pd, _read_specs_from_package (.file none (some doc) l) pd = doc) ∧
    (∀ lines pd, _read_specs_from_package (.file none none (some lines)) pd =
      [("weak", sortedSet ((lines.filter
          (fun spec => !(distName pd).data.isPrefixOf spec.data)).map
        (fun spec => String.mk (pyRstrip spec.data))))]) := by
  refine ⟨?_, ?_, ?_, ?_, ?_, ?_⟩ <;> intros <;> rfl

/-- Membership in a run/run_constrained section after the write-back of a
set value: the set itself when nonempty, else the untouched original. -/
theorem mem_writeSec_pset (x : String) (r : Option (List String))
    (X : Finset String) :
    SecVal.mem x (writeSec (secOf r) (.pset X)) ↔
      (if X = ∅ then x ∈ r.getD [] else x ∈ X) := by
  unfold writeSec PyDeps.truthy secOf
  by_cases hX : X = ∅ <;> cases r <;> simp [hX, SecVal.mem]

/-- C1: the claim says the build `strong` run-exports are PREPENDED to the
host requirements before host resolution.  False at this explicit
cross-compiling input with host section `["a"]` and strong export
`["s 1.0"]`: the source uses `host_reqs.extend(...)`, so host resolution
sees `["a", "s 1.0"]`, not the prepended `["s 1.0", "a"]`. -/
theorem C1_counterexample :
    (add_upstream_pins C1exCross).hostAfterExtend = some ["a", "s 1.0"] ∧
    (add_upstream_pins C1exCross).hostAfterExtend ≠
      some (["s 1.0"] ++ ["a"]) := by
  constructor
  · rfl
  · decide

/-- C1 (amended): a `strong` run-export spec of an explicitly-required build
dependency is APPENDED (not prepended) to the host requirements before host
resolution when cross-compiling, and for non-noarch jobs it ends up in the
final run requirements (cross or not); a `weak` run-export of a build
dependency reaches run only when the build environment is also acting as
the host environment (for noarch jobs only the `noarch` category
propagates at all). -/
theorem mem_writeSec_pset_of_mem {x : String} (r : Option (List String))
    {X : Finset String} (hx : x ∈ X) :
    SecVal.mem x (writeSec (secOf r) (.pset X)) := by
  rw [mem_writeSec_pset]
  split_ifs with hX
  · exact absurd hX (Finset.ne_empty_of_mem hx)
  · exact hx

theorem not_mem_writeSec_pset {x : String} {r : Option (List String)}
    {X : Finset String} (hr : x ∉ r.getD []) (hX : x ∉ X) :
    ¬ SecVal.mem x (writeSec (secOf r) (.pset X)) := by
  rw [mem_writeSec_pset]
  split_ifs <;> simp [hr, hX]

theorem C1_theorem (inp : UpstreamPinInputs) (s w : String)
    (hs : s ∈ inp.buildRead.exports.strong)
    (hw : w ∈ inp.buildRead.exports.weak)
    (hw1 : w ∉ inp.reqs.run.getD [])
    (hw2 : w ∉ inp.buildRead.exports.strong)
    (hw3 : w ∉ inp.buildRead.exports.noarch)
    (hw4 : ∀ hr, w ∉ (inp.hostRead hr).exports.strong ∧
      w ∉ (inp.hostRead hr).exports.weak ∧ w ∉ (inp.hostRead hr).exports.noarch)
    (hw5 : ∀ o, inp.matchingOutput = some o → w ∉ o.run.getD []) :
    (inp.is_cross = true →
      (add_upstream_pins inp).hostAfterExtend =
        some (hostBaseOf inp ++ inp.buildRead.exports.strong) ∧
      ((inp.noarch || inp.noarch_python) = false →
        SecVal.mem s (add_upstream_pins inp).reqs.run)) ∧
    (inp.is_cross = false → (inp.noarch || inp.noarch_python) = false →
      SecVal.mem s (add_upstream_pins inp).reqs.run) ∧
    (SecVal.mem w (add_upstream_pins inp).reqs.run →
      inp.build_is_host = true) := by
  have hwbase : w ∉ (baseReqsOf inp).run.getD [] := by
    unfold baseReqsOf
    split
    · cases hmo : inp.matchingOutput with
      | none => exact hw1
      | some o => exact hw5 o hmo
    · exact hw1
  have hex := inp.hostRead (hostBaseOf inp ++ inp.buildRead.exports.strong)
  obtain ⟨h4a, h4b, h4c⟩ :=
    hw4 (hostBaseOf inp ++ inp.buildRead.exports.strong)
  refine ⟨?_, ?_, ?_⟩
  · intro hc
    constructor
    · simp [add_upstream_pins, hc]
    · intro hnn
      simp only [add_upstream_pins, hc, if_true, hnn, Bool.false_eq_true,
        if_false]
      exact mem_writeSec_pset_of_mem _
        (Finset.mem_union_left _ (List.mem_toFinset.mpr (by simp [hs])))
  · intro hc hnn
    cases hb : inp.build_is_host
    · simp only [add_upstream_pins, hc, Bool.false_eq_true, if_false, hnn, hb]
      exact mem_writeSec_pset_of_mem _
        (Finset.mem_union_left _ (List.mem_toFinset.mpr hs))
    · simp only [add_upstream_pins, hc, Bool.false_eq_true, if_false, hnn, hb]
      exact mem_writeSec_pset_of_mem _
        (Finset.mem_union_left _ (List.mem_toFinset.mpr (by simp [hs])))
  · intro hmemw
    cases hb : inp.build_is_host
    · exfalso
      cases hc : inp.is_cross
      · cases hnn : (inp.noarch || inp.noarch_python)
        · simp only [add_upstream_pins, hc, Bool.false_eq_true, if_false,
            hnn, hb] at hmemw
          refine not_mem_writeSec_pset hw1 ?_ hmemw
          simp [hw2, hw1]
        · simp only [add_upstream_pins, hc, Bool.false_eq_true, if_false,
            hnn, hb] at hmemw
          refine not_mem_writeSec_pset hw1 ?_ hmemw
          simp [hw1]
      · cases hnn : (inp.noarch || inp.noarch_python)
        · simp only [add_upstream_pins, hc, if_true, hnn,
            Bool.false_eq_true, if_false] at hmemw
          refine not_mem_writeSec_pset hwbase ?_ hmemw
          simp [h4a, h4b, hw2, hwbase]
        · simp only [add_upstream_pins, hc, if_true, hnn, if_false] at hmemw
          refine not_mem_writeSec_pset hwbase ?_ hmemw
          simp [h4c, hwbase]
    · rfl

/-- C1 witness: at a concrete non-cross, non-noarch job whose build is not
the host, the strong export `"s 1.0"` lands in run, and the weak export
`"w 1.0"` can only be in run if the build were acting as host; at the
concrete cross job the strong export is appended to the host list before
host resolution and lands in run. -/
theorem C1_witness :
    SecVal.mem "s 1.0" (add_upstream_pins C1ex).reqs.run ∧
    (SecVal.mem "w 1.0" (add_upstream_pins C1ex).reqs.run →
      C1ex.build_is_host = true) ∧
    (add_upstream_pins C1exCross).hostAfterExtend =
      some (hostBaseOf C1exCross ++ ["s 1.0"]) ∧
    SecVal.mem "s 1.0" (add_upstream_pins C1exCross).reqs.run :=
  have h1 := C1_theorem C1ex "s 1.0" "w 1.0" (by decide) (by decide)
    (by decide) (by decide) (by decide)
    (fun hr => ⟨by simp [C1ex, RunExports.empty], by simp [C1ex, RunExports.empty],
      by simp [C1ex, RunExports.empty]⟩)
    (fun o h => by simp [C1ex] at h)
  have h2 := C1_theorem C1exCross "s 1.0" "w 1.0" (by decide) (by decide)
    (by decide) (by decide) (by decide)
    (fun hr => ⟨by simp [C1exCross, RunExports.empty],
      by simp [C1exCross, RunExports.empty],
      by simp [C1exCross, RunExports.empty]⟩)
    (fun o h => by simp [C1exCross] at h)
  ⟨h1.2.1 rfl rfl, h1.2.2, (h2.1 rfl).1, (h2.1 rfl).2 rfl⟩

/-- C2: evaluation at the failing input.  For a non-cross job with
`build_is_host`, build section `["bzip2"]`, resolved build deps
`["bzip2 1.0.8 h0"]` and weak build run-export `["zlib 1.2"]`, the source's
`build_deps = set(build_deps or []).update(...)` binds `build_deps` to
`None` (`set.update` returns `None`), so the final write-back skips the
build section entirely: it stays `["bzip2"]`, containing neither the weak
export nor the resolved build dependencies -- while the same weak export
does reach the run section. -/
theorem C2_theorem :
    (add_upstream_pins C2ex).reqs.build = SecVal.strs ["bzip2"] ∧
    ¬ SecVal.mem "zlib 1.2" (add_upstream_pins C2ex).reqs.build ∧
    ¬ SecVal.mem "bzip2 1.0.8 h0" (add_upstream_pins C2ex).reqs.build ∧
    SecVal.mem "zlib 1.2" (add_upstream_pins C2ex).reqs.run := by
  refine ⟨rfl, ?_, ?_, ?_⟩ <;> decide

/-! ## Helper lemmas: the distribution loop -/

theorem dictInsert_fresh {d : List (JobKey × Variant)} {k : JobKey}
    (v : Variant) (hfresh : ∀ p ∈ d, p.1 ≠ k) :
    dictInsert d k v = d ++ [(k, v)] := by
  unfold dictInsert
  rw [if_neg]
  simp only [List.any_eq_true, not_exists, not_and]
  intro p hp
  simpa using hfresh p hp

theorem reduceVariantsAux_pairwise (used : List String) :
    ∀ (vs acc : List Variant),
      acc.Pairwise (fun a b => projectVariant used a ≠ projectVariant used b) →
      (reduceVariantsAux used acc vs).Pairwise
        (fun a b => projectVariant used a ≠ projectVariant used b)
  | [], _, h => h
  | v :: vs, acc, h => by
    unfold reduceVariantsAux
    split
    · exact reduceVariantsAux_pairwise used vs acc h
    · rename_i hany
      apply reduceVariantsAux_pairwise used vs
      rw [List.pairwise_append]
      refine ⟨h, by simp, ?_⟩
      intro x hx y hy
      rw [List.mem_singleton] at hy
      subst hy
      intro heq
      apply hany
      rw [List.any_eq_true]
      exact ⟨x, hx, by simp [heq]⟩

theorem get_reduced_variant_set_pairwise (used : List String)
    (variants : List Variant) :
    (get_reduced_variant_set used variants).Pairwise
      (fun a b => projectVariant used a ≠ projectVariant used b) :=
  reduceVariantsAux_pairwise used variants [] (by simp)

theorem distLoop_ok (inp : DistInputs) :
    ∀ (vs : List Variant) (d : List (JobKey × Variant)),
      vs.Pairwise (fun a b =>
        projectVariant inp.usedVars a ≠ projectVariant inp.usedVars b) →
      (∀ v ∈ vs, ∀ p ∈ d, p.1 ≠ jobKeyOf inp v) →
      (∀ v ∈ vs, ∀ m, inp.parse v ≠ .fatal m) →
      distLoop inp d vs = .ok (d ++ vs.map (fun v => (jobKeyOf inp v, v)))
  | [], d, _, _, _ => by simp [distLoop]
  | v :: vs, d, hpw, hfresh, hfatal => by
    rw [List.pairwise_cons] at hpw
    unfold distLoop
    cases hp : inp.parse v with
    | fatal msg => exact absurd hp (hfatal v (List.mem_cons_self v vs) msg)
    | ok =>
      rw [dictInsert_fresh v (hfresh v (List.mem_cons_self v vs))]
      rw [distLoop_ok inp vs (d ++ [(jobKeyOf inp v, v)]) hpw.2 ?_ ?_]
      · simp
      · intro w hw p hp
        rcases List.mem_append.mp hp with hpd | hpv
        · exact hfresh w (List.mem_cons_of_mem v hw) p hpd
        · rw [List.mem_singleton] at hpv
          subst hpv
          intro heq
          exact hpw.1 w hw (congrArg (fun k : JobKey => k.2.2) heq)
      · exact fun w hw => hfatal w (List.mem_cons_of_mem v hw)
    | benign =>
      rw [dictInsert_fresh v (hfresh v (List.mem_cons_self v vs))]
      rw [distLoop_ok inp vs (d ++ [(jobKeyOf inp v, v)]) hpw.2 ?_ ?_]
      · simp
      · intro w hw p hp
        rcases List.mem_append.mp hp with hpd | hpv
        · exact hfresh w (List.mem_cons_of_mem v hw) p hpd
        · rw [List.mem_singleton] at hpv
          subst hpv
          intro heq
          exact hpw.1 w hw (congrArg (fun k : JobKey => k.2.2) heq)
      · exact fun w hw => hfatal w (List.mem_cons_of_mem v hw)

theorem distLoop_error (inp : DistInputs) :
    ∀ (vs : List Variant) (d : List (JobKey × Variant)),
      (∃ v ∈ vs, ∃ m, inp.parse v = .fatal m) →
      ∃ e, distLoop inp d vs = .error e
  | [], _, h => by simp at h
  | v :: vs, d, h => by
    unfold distLoop
    cases hp : inp.parse v with
    | fatal msg => exact ⟨msg, rfl⟩
    | ok =>
      apply distLoop_error inp vs
      obtain ⟨x, hx, m, hm⟩ := h
      rcases List.mem_cons.mp hx with rfl | hx
      · rw [hp] at hm; cases hm
      · exact ⟨x, hx, m, hm⟩
    | benign =>
      apply distLoop_error inp vs
      obtain ⟨x, hx, m, hm⟩ := h
      rcases List.mem_cons.mp hx with rfl | hx
      · rw [hp] at hm; cases hm
      · exact ⟨x, hx, m, hm⟩

theorem distribute_variants_ok (inp : DistInputs) (hno : inp.noarchish = false)
    (hfatal : ∀ v ∈ get_reduced_variant_set inp.usedVars inp.variants,
      ∀ m, inp.parse v ≠ .fatal m) :
    distribute_variants inp =
      .ok (get_reduced_variant_set inp.usedVars inp.variants) := by
  unfold distribute_variants
  rw [hno]
  simp only [Bool.false_eq_true, if_false]
  show Except.bind
      (distLoop inp [] (get_reduced_variant_set inp.usedVars inp.variants))
      (fun d => Except.ok (List.map (fun p => p.2) d)) = _
  rw [distLoop_ok inp (get_reduced_variant_set inp.usedVars inp.variants) []
    (get_reduced_variant_set_pairwise inp.usedVars inp.variants)
    (by simp) hfatal]
  show Except.ok _ = _
  rw [List.nil_append, List.map_map]
  congr 1
  exact List.map_id _

/-- C6: `distribute_variants` emits exactly one build job per distinct
projection of the variant matrix onto the template's used-variables set
(for a non-noarch template whose clones all re-evaluate cleanly); for the
matrix `[{python: "3.9"}, {python: "3.10"}]` and a template using only
`python` it yields the two jobs, and for a template using no variant
variables it yields exactly the first one. -/
theorem C6_theorem :
    (∀ inp : DistInputs, inp.noarchish = false → (∀ v, inp.parse v = .ok) →
      ∃ jobs, distribute_variants inp = .ok jobs ∧
        jobs.length =
          (get_reduced_variant_set inp.usedVars inp.variants).length) ∧
    distribute_variants C6exPy = .ok [C6v1, C6v2] ∧
    distribute_variants C6exNoVars = .ok [C6v1] := by
  refine ⟨?_, by rfl, by rfl⟩
  intro inp hno hok
  exact ⟨_, distribute_variants_ok inp hno
    (fun v _ m => by rw [hok v]; intro h; cases h), rfl⟩

/-- C6 witness: the general clause instantiated at the two-variant
`python` matrix, whose job count is the number of distinct projections. -/
theorem C6_witness :
    ∃ jobs, distribute_variants C6exPy = .ok jobs ∧
      jobs.length =
        (get_reduced_variant_set C6exPy.usedVars C6exPy.variants).length :=
  C6_theorem.1 C6exPy rfl (fun _ => rfl)

/-- C7: the claim says a clone whose re-evaluation raises the benign stop
signal contributes no build job.  False at this explicit input: with the
matrix `[{python: "3.9"}, {python: "3.10"}]` and the second clone raising
the benign signal, `distribute_variants` still returns BOTH jobs -- the
`except (SystemExit, CondaBuildUserError): pass` swallows the signal and
the clone is recorded anyway. -/
theorem C7_counterexample :
    distribute_variants C7ex = .ok [C6v1, C6v2] ∧
    C7ex.parse C6v2 = .benign ∧
    ¬ (∀ jobs, distribute_variants C7ex = Except.ok jobs → C6v2 ∉ jobs) := by
  refine ⟨by rfl, by rfl, ?_⟩
  intro h
  exact h [C6v1, C6v2] (by rfl) (by simp)

/-- C7 (amended): a clone whose re-evaluation raises the benign stop signal
has the failure suppressed but still contributes its build job to the
returned list; re-evaluation failing with any other error makes
`distribute_variants` propagate a failure to the caller. -/
theorem C7_theorem :
    (∀ (inp : DistInputs) (v : Variant), inp.noarchish = false →
      (∀ w ∈ get_reduced_variant_set inp.usedVars inp.variants,
        ∀ m, inp.parse w ≠ .fatal m) →
      v ∈ get_reduced_variant_set inp.usedVars inp.variants →
      inp.parse v = .benign →
      ∃ jobs, distribute_variants inp = .ok jobs ∧ v ∈ jobs) ∧
    (∀ (inp : DistInputs) (v : Variant) (m : String), inp.noarchish = false →
      v ∈ get_reduced_variant_set inp.usedVars inp.variants →
      inp.parse v = .fatal m →
      ∃ e, distribute_variants inp = .error e) := by
  constructor
  · intro inp v hno hfatal hv _
    exact ⟨_, distribute_variants_ok inp hno hfatal, hv⟩
  · intro inp v m hno hv hfat
    obtain ⟨e, he⟩ := distLoop_error inp
      (get_reduced_variant_set inp.usedVars inp.variants) []
      ⟨v, hv, m, hfat⟩
    refine ⟨e, ?_⟩
    unfold distribute_variants
    rw [hno]
    simp only [Bool.false_eq_true, if_false]
    show Except.bind
        (distLoop inp [] (get_reduced_variant_set inp.usedVars inp.variants))
        (fun d => Except.ok (List.map (fun p => p.2) d)) = _
    rw [he]
    rfl

/-- C7 witness: the amended clauses at the concrete two-variant matrix:
the benign second clone is still among the returned jobs, and a non-benign
failure of the second clone propagates. -/
theorem C7_witness :
    (∃ jobs, distribute_variants C7ex = .ok jobs ∧ C6v2 ∈ jobs) ∧
    (∃ e, distribute_variants C7exFatal = .error e) :=
  ⟨C7_theorem.1 C7ex C6v2 rfl
      (by
        intro w hw m
        have hred : get_reduced_variant_set C7ex.usedVars C7ex.variants =
            [C6v1, C6v2] := by rfl
        rw [hred] at hw
        rcases List.mem_cons.mp hw with rfl | hw
        · intro h; cases h
        · rw [List.mem_singleton] at hw
          subst hw
          intro h; cases h)
      (by decide) (by rfl),
   C7_theorem.2 C7exFatal C6v2 "boom" rfl
      (by decide) (by rfl)⟩
